import Mathlib

/-!
Verification development for the skin2schematic geometry core
(`src/geometry/primitives.py`, `rig.py`, `pose.py`, `items.py`,
`rasterizer.py`).

The Python source is shallowly embedded:

* the 4x4 row-major float matrices of `primitives.py` become a 16-field
  real-valued structure `Mat4`, with `multiply_matrix` written out as the
  unrolled `c_ij = sum_k a_ik * b_kj` loop;
* the scene graph (`Node`) becomes an arena of `NodeData` records with
  parent indices, as the node's mutable fields are exactly
  `origin`/`rotation`;
* `PoseApplicator.apply_pose` becomes a fold over the pose entries that
  rewrites the named nodes and collects the warnings the Python code
  prints for unknown joints;
* `BoxPart.get_texture_coord` is embedded over `ℚ` (an exact stand-in for
  the float local coordinates, with the same `epsilon = 0.001`);
* `Rasterizer.rasterize` steps 2-7 (grid, painter's compositing over the
  parts sorted by `is_overlay`, alpha threshold, hollow erosion,
  extraction) are embedded with each part's per-voxel inverse-mapped
  texture sample (steps 3-5 of the source) as an explicit `sample`
  field, so the compositing claims quantify over every part/pose/texture.
-/

/-- Row-major 4x4 matrix of reals, mirroring the 16-float tuples of
`primitives.py`. -/
structure Mat4 where
  m00 : ℝ
  m01 : ℝ
  m02 : ℝ
  m03 : ℝ
  m10 : ℝ
  m11 : ℝ
  m12 : ℝ
  m13 : ℝ
  m20 : ℝ
  m21 : ℝ
  m22 : ℝ
  m23 : ℝ
  m30 : ℝ
  m31 : ℝ
  m32 : ℝ
  m33 : ℝ

/-- Embeds `identity_matrix` from `primitives.py`. -/
noncomputable def identity_matrix : Mat4 :=
  ⟨1, 0, 0, 0,
   0, 1, 0, 0,
   0, 0, 1, 0,
   0, 0, 0, 1⟩

/-- Embeds `multiply_matrix` (the triple loop `c_ij = sum_k a_ik * b_kj`,
unrolled). -/
noncomputable def multiply_matrix (a b : Mat4) : Mat4 :=
  ⟨a.m00 * b.m00 + a.m01 * b.m10 + a.m02 * b.m20 + a.m03 * b.m30,
   a.m00 * b.m01 + a.m01 * b.m11 + a.m02 * b.m21 + a.m03 * b.m31,
   a.m00 * b.m02 + a.m01 * b.m12 + a.m02 * b.m22 + a.m03 * b.m32,
   a.m00 * b.m03 + a.m01 * b.m13 + a.m02 * b.m23 + a.m03 * b.m33,
   a.m10 * b.m00 + a.m11 * b.m10 + a.m12 * b.m20 + a.m13 * b.m30,
   a.m10 * b.m01 + a.m11 * b.m11 + a.m12 * b.m21 + a.m13 * b.m31,
   a.m10 * b.m02 + a.m11 * b.m12 + a.m12 * b.m22 + a.m13 * b.m32,
   a.m10 * b.m03 + a.m11 * b.m13 + a.m12 * b.m23 + a.m13 * b.m33,
   a.m20 * b.m00 + a.m21 * b.m10 + a.m22 * b.m20 + a.m23 * b.m30,
   a.m20 * b.m01 + a.m21 * b.m11 + a.m22 * b.m21 + a.m23 * b.m31,
   a.m20 * b.m02 + a.m21 * b.m12 + a.m22 * b.m22 + a.m23 * b.m32,
   a.m20 * b.m03 + a.m21 * b.m13 + a.m22 * b.m23 + a.m23 * b.m33,
   a.m30 * b.m00 + a.m31 * b.m10 + a.m32 * b.m20 + a.m33 * b.m30,
   a.m30 * b.m01 + a.m31 * b.m11 + a.m32 * b.m21 + a.m33 * b.m31,
   a.m30 * b.m02 + a.m31 * b.m12 + a.m32 * b.m22 + a.m33 * b.m32,
   a.m30 * b.m03 + a.m31 * b.m13 + a.m32 * b.m23 + a.m33 * b.m33⟩

/-- Embeds `translation_matrix`. -/
noncomputable def translation_matrix (x y z : ℝ) : Mat4 :=
  ⟨1, 0, 0, x,
   0, 1, 0, y,
   0, 0, 1, z,
   0, 0, 0, 1⟩

/-- Embeds Python's `math.radians`. -/
noncomputable def radians (deg : ℝ) : ℝ := deg * Real.pi / 180

/-- Embeds `rotation_matrix` (Euler degrees, combined as `Rz * (Ry * Rx)`
exactly as in the source). -/
noncomputable def rotation_matrix (rx ry rz : ℝ) : Mat4 :=
  let cx := Real.cos (radians rx)
  let sx := Real.sin (radians rx)
  let cy := Real.cos (radians ry)
  let sy := Real.sin (radians ry)
  let cz := Real.cos (radians rz)
  let sz := Real.sin (radians rz)
  let mx : Mat4 :=
    ⟨1, 0, 0, 0,
     0, cx, -sx, 0,
     0, sx, cx, 0,
     0, 0, 0, 1⟩
  let my : Mat4 :=
    ⟨cy, 0, sy, 0,
     0, 1, 0, 0,
     -sy, 0, cy, 0,
     0, 0, 0, 1⟩
  let mz : Mat4 :=
    ⟨cz, -sz, 0, 0,
     sz, cz, 0, 0,
     0, 0, 1, 0,
     0, 0, 0, 1⟩
  multiply_matrix mz (multiply_matrix my mx)

/-- Embeds `invert_affine_matrix` (transpose of the 3x3 block, negated
transformed translation). -/
noncomputable def invert_affine_matrix (m : Mat4) : Mat4 :=
  ⟨m.m00, m.m10, m.m20, -(m.m00 * m.m03 + m.m10 * m.m13 + m.m20 * m.m23),
   m.m01, m.m11, m.m21, -(m.m01 * m.m03 + m.m11 * m.m13 + m.m21 * m.m23),
   m.m02, m.m12, m.m22, -(m.m02 * m.m03 + m.m12 * m.m13 + m.m22 * m.m23),
   0, 0, 0, 1⟩

/-- Embeds `transform_point` (full 4x4 applied to a homogeneous point). -/
noncomputable def transform_point (m : Mat4) (x y z : ℝ) : ℝ × ℝ × ℝ :=
  (m.m00 * x + m.m01 * y + m.m02 * z + m.m03,
   m.m10 * x + m.m11 * y + m.m12 * z + m.m13,
   m.m20 * x + m.m21 * y + m.m22 * z + m.m23)

/-- Evaluation of `rotation_matrix` to its closed-form entries
(the product `Rz * (Ry * Rx)` written out). -/
theorem rotation_matrix_eval (rx ry rz : ℝ) :
    rotation_matrix rx ry rz =
      ⟨Real.cos (radians rz) * Real.cos (radians ry),
       Real.cos (radians rz) * Real.sin (radians ry) * Real.sin (radians rx) -
         Real.sin (radians rz) * Real.cos (radians rx),
       Real.cos (radians rz) * Real.sin (radians ry) * Real.cos (radians rx) +
         Real.sin (radians rz) * Real.sin (radians rx),
       0,
       Real.sin (radians rz) * Real.cos (radians ry),
       Real.sin (radians rz) * Real.sin (radians ry) * Real.sin (radians rx) +
         Real.cos (radians rz) * Real.cos (radians rx),
       Real.sin (radians rz) * Real.sin (radians ry) * Real.cos (radians rx) -
         Real.cos (radians rz) * Real.sin (radians rx),
       0,
       -Real.sin (radians ry),
       Real.cos (radians ry) * Real.sin (radians rx),
       Real.cos (radians ry) * Real.cos (radians rx),
       0, 0, 0, 0, 1⟩ := by
  simp only [rotation_matrix, multiply_matrix, Mat4.mk.injEq]
  refine ⟨?_, ?_, ?_, ?_, ?_, ?_, ?_, ?_, ?_, ?_, ?_, ?_, ?_, ?_, ?_, ?_⟩ <;> ring

/-- Multiplying a translation matrix onto an affine matrix (bottom row
`0 0 0 1`) keeps the linear block and offsets the translation column. -/
theorem translation_mul_affine (tx ty tz r00 r01 r02 r03 r10 r11 r12 r13 r20 r21 r22 r23 : ℝ) :
    multiply_matrix (translation_matrix tx ty tz)
        ⟨r00, r01, r02, r03, r10, r11, r12, r13, r20, r21, r22, r23, 0, 0, 0, 1⟩ =
      ⟨r00, r01, r02, r03 + tx, r10, r11, r12, r13 + ty,
       r20, r21, r22, r23 + tz, 0, 0, 0, 1⟩ := by
  simp only [multiply_matrix, translation_matrix, Mat4.mk.injEq]
  refine ⟨?_, ?_, ?_, ?_, ?_, ?_, ?_, ?_, ?_, ?_, ?_, ?_, ?_, ?_, ?_, ?_⟩ <;> ring

/-- Core algebraic fact behind claim C7: for any rotation block with
orthonormal columns (which the Euler product always has, by the
Pythagorean identity) and any translation, the closed-form affine
inverse is a left inverse. Stated over abstract cosine/sine values. -/
theorem invert_affine_mul_self (cx sx cy sy cz sz tx ty tz : ℝ)
    (hx : sx ^ 2 + cx ^ 2 = 1) (hy : sy ^ 2 + cy ^ 2 = 1) (hz : sz ^ 2 + cz ^ 2 = 1) :
    multiply_matrix
        (invert_affine_matrix
          ⟨cz * cy, cz * sy * sx - sz * cx, cz * sy * cx + sz * sx, tx,
           sz * cy, sz * sy * sx + cz * cx, sz * sy * cx - cz * sx, ty,
           -sy, cy * sx, cy * cx, tz, 0, 0, 0, 1⟩)
        ⟨cz * cy, cz * sy * sx - sz * cx, cz * sy * cx + sz * sx, tx,
         sz * cy, sz * sy * sx + cz * cx, sz * sy * cx - cz * sx, ty,
         -sy, cy * sx, cy * cx, tz, 0, 0, 0, 1⟩ = identity_matrix := by
  simp only [multiply_matrix, invert_affine_matrix, identity_matrix, Mat4.mk.injEq]
  refine ⟨?_, ?_, ?_, ?_, ?_, ?_, ?_, ?_, ?_, ?_, ?_, ?_, ?_, ?_, ?_, ?_⟩
  · linear_combination cy ^ 2 * hz + hy
  · linear_combination (cy * sy * sx) * hz
  · linear_combination (cy * sy * cx) * hz
  · ring
  · linear_combination (cy * sy * sx) * hz
  · linear_combination (sy ^ 2 * sx ^ 2 + cx ^ 2) * hz + sx ^ 2 * hy + hx
  · linear_combination (sy ^ 2 * sx * cx - sx * cx) * hz + sx * cx * hy
  · ring
  · linear_combination (cy * sy * cx) * hz
  · linear_combination (sy ^ 2 * sx * cx - sx * cx) * hz + sx * cx * hy
  · linear_combination (sy ^ 2 * cx ^ 2 + sx ^ 2) * hz + cx ^ 2 * hy + hx
  · ring
  · ring
  · ring
  · ring
  · ring

/-- Claim C7: for every matrix composed from `translation_matrix` and
`rotation_matrix` (any translation, any rotation angles, hence in
particular all angles in [-360, 360] at 15 degree increments),
`multiply_matrix (invert_affine_matrix M) M` is the identity matrix in
every entry; in the exact real-valued model of the float code the
difference is 0, which is within the 1e-6 tolerance. -/
theorem C7_invert_affine_left_inverse (tx ty tz rx ry rz : ℝ) :
    multiply_matrix
      (invert_affine_matrix
        (multiply_matrix (translation_matrix tx ty tz) (rotation_matrix rx ry rz)))
      (multiply_matrix (translation_matrix tx ty tz) (rotation_matrix rx ry rz))
      = identity_matrix := by
  rw [rotation_matrix_eval, translation_mul_affine]
  exact invert_affine_mul_self _ _ _ _ _ _ _ _ _
    (Real.sin_sq_add_cos_sq (radians rx))
    (Real.sin_sq_add_cos_sq (radians ry))
    (Real.sin_sq_add_cos_sq (radians rz))

/-- A pose override record, embedding the dict shapes accepted by
`PoseApplicator.apply_pose`: either the legacy flat `{x,y,z}` rotation
dict (taken when the dict has an `x` key and no `rot` key) or the new
format with optional `rot` and `pos` sub-dicts whose components are each
optional (`dict.get(key, 0.0)`). -/
inductive PoseEntry (α : Type) where
  | legacy (x y z : Option α)
  | modern (rot : Option (Option α × Option α × Option α))
           (pos : Option (Option α × Option α × Option α))

/-- One scene-graph node of `primitives.Node`, embedded as an arena
record: `parent` is the index of the parent node in the rig's node list
(the Python objects hold a direct reference). Only the fields that
`apply_pose` and `get_world_matrix` read are modelled; the scalar type is
a parameter so that the same definition serves the exact-real rig and
decidable test instances. -/
structure NodeData (α : Type) where
  name : String
  parent : Option Nat
  origin : α × α × α
  rotation : α × α × α

/-- Application of one pose entry to one node, embedding the body of the
`if part_name in nodes_map` branch of `apply_pose`: the legacy format
overwrites `rotation`; the new format overwrites `rotation` when a
`rot` dict is given and `origin` when a `pos` dict is given, each missing
component defaulting to `0.0` (`rot.get("x", 0.0)` etc.). -/
def applyEntry {α : Type} [Zero α] (nd : NodeData α) : PoseEntry α → NodeData α
  | .legacy x y z => { nd with rotation := (x.getD 0, y.getD 0, z.getD 0) }
  | .modern rot pos =>
      let nd' := match rot with
        | some (rx, ry, rz) => { nd with rotation := (rx.getD 0, ry.getD 0, rz.getD 0) }
        | none => nd
      match pos with
      | some (px, py, pz) => { nd' with origin := (px.getD 0, py.getD 0, pz.getD 0) }
      | none => nd'

/-- One iteration of the `for part_name, data in pose_data.items()` loop
of `apply_pose`: the accumulator carries the node list and the warnings
printed so far. A known joint name is overwritten via `applyEntry`; an
unknown one only appends the warning. -/
def poseStep {α : Type} [Zero α] (acc : List (NodeData α) × List String)
    (entry : String × PoseEntry α) : List (NodeData α) × List String :=
  if acc.1.any fun nd => nd.name = entry.1 then
    (acc.1.map fun nd => if nd.name = entry.1 then applyEntry nd entry.2 else nd, acc.2)
  else
    (acc.1, acc.2 ++ ["Warning: Pose references unknown part " ++ entry.1])

/-- Embeds `PoseApplicator.apply_pose`: for each `(joint name, entry)`
pair of the pose data (Python dicts preserve insertion order), the node
of that name is overwritten if present; otherwise a warning string is
recorded (the Python code prints it). The rig's node names are unique, so
updating every name match coincides with the Python single-object
mutation. Returns the updated node list together with the warnings. -/
def apply_pose {α : Type} [Zero α] (nodes : List (NodeData α))
    (poseData : List (String × PoseEntry α)) : List (NodeData α) × List String :=
  poseData.foldl poseStep (nodes, [])

/-- Applying one pose entry never changes node names. -/
theorem poseStep_names {α : Type} [Zero α] (acc : List (NodeData α) × List String)
    (entry : String × PoseEntry α) :
    (poseStep acc entry).1.map (fun nd => nd.name) = acc.1.map fun nd => nd.name := by
  unfold poseStep
  by_cases h : acc.1.any fun nd => nd.name = entry.1
  · rw [if_pos h]
    simp only [List.map_map]
    apply List.map_congr_left
    intro nd _
    by_cases hn : nd.name = entry.1
    · simp only [Function.comp, if_pos hn]
      cases entry.2 with
      | legacy x y z => rfl
      | modern r p => cases r <;> cases p <;> simp [applyEntry]
    · simp [Function.comp, hn]
  · rw [if_neg h]

/-- The updated node list of `apply_pose` does not depend on the warning
accumulator, and node names are preserved by the whole fold. -/
theorem apply_pose_fold_names {α : Type} [Zero α]
    (poseData : List (String × PoseEntry α)) (nodes : List (NodeData α)) (ws : List String) :
    ((poseData.foldl poseStep (nodes, ws)).1.map fun nd => nd.name) =
      nodes.map fun nd => nd.name := by
  induction poseData generalizing nodes ws with
  | nil => rfl
  | cons e rest ih =>
      simp only [List.foldl_cons]
      have hstep := poseStep_names (α := α) (nodes, ws) e
      rcases hps : poseStep (nodes, ws) e with ⟨nodes', ws'⟩
      rw [hps] at hstep
      rw [ih nodes' ws', hstep]

/-- The node-list component of one pose step only depends on the node
list, not on the warnings accumulated so far. -/
theorem poseStep_fst {α : Type} [Zero α] (ns : List (NodeData α)) (ws ws' : List String)
    (entry : String × PoseEntry α) :
    (poseStep (ns, ws) entry).1 = (poseStep (ns, ws') entry).1 := by
  unfold poseStep
  by_cases h : ns.any fun nd => nd.name = entry.1
  · rw [if_pos h, if_pos h]
  · rw [if_neg h, if_neg h]

/-- The node-list component of the whole fold only depends on the node
list seed. -/
theorem apply_pose_fold_fst {α : Type} [Zero α]
    (poseData : List (String × PoseEntry α)) (ns : List (NodeData α)) (ws ws' : List String) :
    (poseData.foldl poseStep (ns, ws)).1 = (poseData.foldl poseStep (ns, ws')).1 := by
  induction poseData generalizing ns ws ws' with
  | nil => rfl
  | cons e rest ih =>
      simp only [List.foldl_cons]
      rcases h1 : poseStep (ns, ws) e with ⟨ns1, ws1⟩
      rcases h2 : poseStep (ns, ws') e with ⟨ns2, ws2⟩
      have : ns1 = ns2 := by
        have := poseStep_fst ns ws ws' e
        rw [h1, h2] at this
        exact this
      subst this
      exact ih ns1 ws1 ws2

/-- Warnings accumulated before the fold survive it. -/
theorem apply_pose_fold_warning_mem {α : Type} [Zero α]
    (poseData : List (String × PoseEntry α)) (ns : List (NodeData α)) (ws : List String)
    (w : String) (hw : w ∈ ws) : w ∈ (poseData.foldl poseStep (ns, ws)).2 := by
  induction poseData generalizing ns ws with
  | nil => exact hw
  | cons e rest ih =>
      simp only [List.foldl_cons]
      unfold poseStep
      by_cases h : ns.any fun nd => nd.name = e.1
      · rw [if_pos h]
        exact ih _ _ hw
      · rw [if_neg h]
        exact ih _ _ (List.mem_append_left _ hw)

/-- Claim C8: a pose map containing a joint name absent from the rig is
handled without failure (the embedding is a total function, matching the
Python `else: print(warning)` path): the unknown entry is reported as a
warning, and the resulting node list is exactly the one obtained from
the same pose map with the unknown entry removed, wherever the unknown
entry sits in the pose map. -/
theorem C8_unknown_joint_skipped {α : Type} [Zero α]
    (nodes : List (NodeData α)) (pre post : List (String × PoseEntry α))
    (n : String) (entry : PoseEntry α)
    (habsent : ∀ nd ∈ nodes, nd.name ≠ n) :
    (apply_pose nodes (pre ++ (n, entry) :: post)).1 = (apply_pose nodes (pre ++ post)).1 ∧
      ("Warning: Pose references unknown part " ++ n) ∈
        (apply_pose nodes (pre ++ (n, entry) :: post)).2 := by
  unfold apply_pose
  rw [List.foldl_append, List.foldl_append]
  rcases h1 : pre.foldl poseStep (nodes, ([] : List String)) with ⟨ns1, ws1⟩
  have hnames : ns1.map (fun nd => nd.name) = nodes.map fun nd => nd.name := by
    have := apply_pose_fold_names pre nodes []
    rw [h1] at this
    exact this
  have habsent1 : ¬ ns1.any fun nd => nd.name = n := by
    simp only [List.any_eq_true, decide_eq_true_eq]
    rintro ⟨nd, hnd, hname⟩
    have hmem : nd.name ∈ ns1.map fun nd => nd.name := List.mem_map_of_mem _ hnd
    rw [hnames, hname] at hmem
    rcases List.mem_map.mp hmem with ⟨nd0, hnd0, heq⟩
    exact habsent nd0 hnd0 heq
  constructor
  · rw [List.foldl_cons]
    unfold poseStep
    rw [if_neg habsent1]
    exact apply_pose_fold_fst post ns1 _ _
  · rw [List.foldl_cons]
    unfold poseStep
    rw [if_neg habsent1]
    exact apply_pose_fold_warning_mem post ns1 _ _
      (List.mem_append_right _ (List.mem_singleton_self _))

/-- Witness for C8 at a concrete rig: a single node named `A`, a pose
referencing only the unknown joint `B`; the node list is unchanged and
the warning is recorded. -/
theorem C8_witness :
    (apply_pose [⟨"A", none, ((7 : ℤ), 8, 9), (1, 2, 3)⟩]
        ([] ++ ("B", PoseEntry.legacy (some 4) none none) :: [])).1 =
      (apply_pose [⟨"A", none, ((7 : ℤ), 8, 9), (1, 2, 3)⟩] ([] ++ [])).1 ∧
      ("Warning: Pose references unknown part " ++ "B") ∈
        (apply_pose [⟨"A", none, ((7 : ℤ), 8, 9), (1, 2, 3)⟩]
          ([] ++ ("B", PoseEntry.legacy (some 4) none none) :: [])).2 :=
  C8_unknown_joint_skipped _ _ _ _ _ (by decide)

/-- Claim C10: a `pos` override replaces the node's origin
with `(pos.get("x",0.0), pos.get("y",0.0), pos.get("z",0.0))`; a
component omitted from the `pos` dict therefore becomes `0.0`, not the
node's bind-pose value. Applying `{"pos": {"y": py}}` to a joint sets its
origin to exactly `(0, py, 0)` regardless of the origin the rig factory
assigned, leaving rotation and all other nodes untouched. -/
theorem C10_pos_override_absolute {α : Type} [Zero α]
    (nodes : List (NodeData α)) (n : String) (py : α)
    (hpresent : nodes.any fun nd => nd.name = n) :
    (apply_pose nodes [(n, PoseEntry.modern none (some (none, some py, none)))]).1 =
      nodes.map fun nd =>
        if nd.name = n then { nd with origin := (0, py, 0) } else nd := by
  unfold apply_pose
  simp only [List.foldl_cons, List.foldl_nil]
  unfold poseStep
  rw [if_pos hpresent]
  rfl

/-- Witness for C10: a node whose rig-assigned origin is `(7, 8, 9)`
receives origin exactly `(0, 5, 0)` from the pose `{"pos": {"y": 5}}`. -/
theorem C10_witness :
    (apply_pose [⟨"RightArmJoint", none, ((7 : ℤ), 8, 9), (1, 2, 3)⟩]
        [("RightArmJoint", PoseEntry.modern none (some (none, some 5, none)))]).1 =
      [⟨"RightArmJoint", none, ((0 : ℤ), 5, 0), (1, 2, 3)⟩] := by
  rw [C10_pos_override_absolute _ _ _ (by decide)]
  rfl

/-- An RGBA color with natural-number channels, as sampled from the
`skin_data` uint8 array. The all-zero color is the initial content of the
`volume_colors` buffer. -/
structure RGBA where
  r : ℕ
  g : ℕ
  b : ℕ
  a : ℕ
deriving DecidableEq

/-- One box part as seen by `Rasterizer.rasterize` steps 3-5: its
`is_overlay` flag (the sort key of line 40) and its inverse-mapped
texture sample. `sample x y z` is the RGBA texture pixel the part's
vectorized pipeline produces for grid voxel `(x, y, z)` (world-to-local
transform of the voxel center, strict bounds mask, nearest-face argmin,
face UV projection, texture fetch), or `none` when the voxel fails the
mask, the face has no UV entry, the projection leaves the face
rectangle, or the part's matrix is singular (the `continue` path).
Quantifying over all `sample` functions quantifies over all parts, all
poses and all textures. -/
structure RPart where
  is_overlay : Bool
  sample : ℤ → ℤ → ℤ → Option RGBA

/-- The part's contribution after the alpha threshold of line 270
(`colors[:, 3] > 0`): the sampled color when it is non-transparent. -/
def opaqueAt (p : RPart) (x y z : ℤ) : Option RGBA :=
  match p.sample x y z with
  | some c => if 0 < c.a then some c else none
  | none => none

/-- Line 40 of `rasterizer.py`:
`sorted_parts = sorted(parts, key=lambda p: p.is_overlay)`. Python's sort
is stable, so this is exactly the non-overlay parts in order followed by
the overlay parts in order. -/
def sortParts (parts : List RPart) : List RPart :=
  (parts.filter fun p => !p.is_overlay) ++ (parts.filter fun p => p.is_overlay)

/-- One iteration of the `for part in sorted_parts` loop: the vectorized
write `volume_colors[final_grid_indices] = final_cols` overwrites the
buffer at every voxel the part claims with non-transparent alpha and
leaves every other voxel unchanged. -/
def writePart (vol : ℤ → ℤ → ℤ → RGBA) (p : RPart) : ℤ → ℤ → ℤ → RGBA :=
  fun x y z =>
    match opaqueAt p x y z with
    | some c => c
    | none => vol x y z

/-- The `volume_colors` buffer after the full part loop, starting from
the all-zero buffer (`np.zeros`). -/
def finalVolume (parts : List RPart) : ℤ → ℤ → ℤ → RGBA :=
  (sortParts parts).foldl writePart fun _ _ _ => ⟨0, 0, 0, 0⟩

/-- The last non-transparent claim on a voxel in processing order, i.e.
the painter-algorithm winner. -/
def lastOpaque (ps : List RPart) (x y z : ℤ) : Option RGBA :=
  ps.foldl
    (fun acc p =>
      match opaqueAt p x y z with
      | some c => some c
      | none => acc)
    none

/-- The integer grid bounds of step 1/2: `x_range = arange(ix_min,
ix_max + 1)` etc., both endpoints inclusive. -/
structure GridBounds where
  xlo : ℤ
  xhi : ℤ
  ylo : ℤ
  yhi : ℤ
  zlo : ℤ
  zhi : ℤ

/-- The inclusive integer range `[lo, hi]` as a list, embedding
`np.arange(lo, hi + 1)`. -/
def intRange (lo hi : ℤ) : List ℤ :=
  (List.range (hi + 1 - lo).toNat).map fun (i : ℕ) => lo + (i : ℤ)

/-- Grid membership (the voxel owns a cell of the `volume_3d` array). -/
def inGrid (g : GridBounds) (x y z : ℤ) : Bool :=
  decide (g.xlo ≤ x) && decide (x ≤ g.xhi) && decide (g.ylo ≤ y) && decide (y ≤ g.yhi) &&
    decide (g.zlo ≤ z) && decide (z ≤ g.zhi)

/-- Line 285, `has_block = volume_3d[:, :, :, 3] > 0`, as a predicate on
world voxel coordinates: the cell exists in the grid and its buffered
alpha is positive. Cells outside the grid are the zero padding of the
erosion step. -/
def hasBlock (g : GridBounds) (parts : List RPart) (x y z : ℤ) : Bool :=
  inGrid g x y z && decide (0 < (finalVolume parts x y z).a)

/-- Lines 292-303: a voxel is internal when all six axis-aligned
neighbors are occupied (with zero padding beyond the grid). -/
def internalVoxel (g : GridBounds) (parts : List RPart) (x y z : ℤ) : Bool :=
  hasBlock g parts (x + 1) y z && hasBlock g parts (x - 1) y z &&
    hasBlock g parts x (y + 1) z && hasBlock g parts x (y - 1) z &&
    hasBlock g parts x y (z + 1) && hasBlock g parts x y (z - 1)

/-- Lines 303-309: the final `keep_mask` (hollow mode erodes internal
voxels; solid mode keeps every occupied voxel). -/
def keepVoxel (g : GridBounds) (parts : List RPart) (solid : Bool) (x y z : ℤ) : Bool :=
  hasBlock g parts x y z && (solid || !internalVoxel g parts x y z)

/-- The output `PixelBlock` record of `primitives.py`. -/
structure PixelBlock where
  x : ℤ
  y : ℤ
  z : ℤ
  r : ℕ
  g : ℕ
  b : ℕ
  a : ℕ
deriving DecidableEq

/-- Embeds `Rasterizer.rasterize` steps 2-7 given the grid bounds of
step 1 and each part's inverse-mapping sampler (steps 3-5): paint the
`volume_colors` buffer over the parts sorted by `is_overlay`, apply the
keep mask (alpha occupancy, optionally eroded), and emit the kept voxels
with their buffered colors in `np.where` row-major order. -/
def rasterize (g : GridBounds) (parts : List RPart) (solid : Bool) : List PixelBlock :=
  (intRange g.xlo g.xhi).flatMap fun x =>
    (intRange g.ylo g.yhi).flatMap fun y =>
      (intRange g.zlo g.zhi).filterMap fun z =>
        if keepVoxel g parts solid x y z then
          some ⟨x, y, z, (finalVolume parts x y z).r, (finalVolume parts x y z).g,
                (finalVolume parts x y z).b, (finalVolume parts x y z).a⟩
        else none

/-- Folding the painter loop from any seed yields the last
non-transparent claim when one exists, the seed otherwise. -/
theorem foldl_paint_eq_lastOpaque (ps : List RPart) (a : Option RGBA) (x y z : ℤ) :
    (ps.foldl
        (fun acc p =>
          match opaqueAt p x y z with
          | some c => some c
          | none => acc)
        a) =
      match lastOpaque ps x y z with
      | some c => some c
      | none => a := by
  induction ps generalizing a with
  | nil => simp [lastOpaque]
  | cons p ps ih =>
      simp only [List.foldl_cons]
      rw [ih]
      conv_rhs => rw [show lastOpaque (p :: ps) x y z =
        ps.foldl
          (fun acc q =>
            match opaqueAt q x y z with
            | some c => some c
            | none => acc)
          (match opaqueAt p x y z with
           | some c => some c
           | none => none) from rfl]
      rw [ih]
      cases hrest : lastOpaque ps x y z <;> cases hp : opaqueAt p x y z <;> simp [hp]

/-- Unfolding one step of the painter winner. -/
theorem lastOpaque_cons (p : RPart) (ps : List RPart) (x y z : ℤ) :
    lastOpaque (p :: ps) x y z =
      match lastOpaque ps x y z with
      | some c => some c
      | none => opaqueAt p x y z := by
  show (ps.foldl _ _) = _
  rw [foldl_paint_eq_lastOpaque]
  cases lastOpaque ps x y z <;> cases hp : opaqueAt p x y z <;> simp [hp]

/-- The buffer after the part loop holds, at each voxel, the last part's
non-transparent claim in processing order, or the zero initialization. -/
theorem foldl_writePart_eq (ps : List RPart) (vol : ℤ → ℤ → ℤ → RGBA) (x y z : ℤ) :
    (ps.foldl writePart vol) x y z =
      match lastOpaque ps x y z with
      | some c => c
      | none => vol x y z := by
  induction ps generalizing vol with
  | nil => simp [lastOpaque]
  | cons p ps ih =>
      simp only [List.foldl_cons]
      rw [ih, lastOpaque_cons]
      cases hrest : lastOpaque ps x y z <;> cases hp : opaqueAt p x y z <;>
        simp [writePart, hp]

/-- `finalVolume` in terms of the painter-algorithm winner. -/
theorem finalVolume_eq (parts : List RPart) (x y z : ℤ) :
    finalVolume parts x y z =
      match lastOpaque (sortParts parts) x y z with
      | some c => c
      | none => ⟨0, 0, 0, 0⟩ := by
  unfold finalVolume
  rw [foldl_writePart_eq]

/-- A painter winner is some listed part's non-transparent claim. -/
theorem lastOpaque_mem (ps : List RPart) (x y z : ℤ) (c : RGBA)
    (h : lastOpaque ps x y z = some c) : ∃ p ∈ ps, opaqueAt p x y z = some c := by
  induction ps with
  | nil => simp [lastOpaque] at h
  | cons p ps ih =>
      rw [lastOpaque_cons] at h
      cases hrest : lastOpaque ps x y z with
      | some d =>
          rw [hrest] at h
          injection h with h
          subst h
          rcases ih hrest with ⟨q, hq, hqc⟩
          exact ⟨q, List.mem_cons_of_mem _ hq, hqc⟩
      | none =>
          rw [hrest] at h
          exact ⟨p, List.mem_cons_self _ _, h⟩

/-- If some listed part makes a non-transparent claim, the painter
winner exists. -/
theorem lastOpaque_isSome (ps : List RPart) (x y z : ℤ)
    (h : ∃ p ∈ ps, (opaqueAt p x y z).isSome) : (lastOpaque ps x y z).isSome := by
  induction ps with
  | nil => simp at h
  | cons p ps ih =>
      rw [lastOpaque_cons]
      rcases h with ⟨q, hq, hqsome⟩
      rcases List.mem_cons.mp hq with rfl | hq'
      · cases hrest : lastOpaque ps x y z
        · exact hqsome
        · rfl
      · have hsome := ih ⟨q, hq', hqsome⟩
        cases hrest : lastOpaque ps x y z
        · rw [hrest] at hsome
          simp at hsome
        · rfl

/-- Splitting the painter fold at an append: claims from the second
chunk win over claims from the first. -/
theorem lastOpaque_append (l1 l2 : List RPart) (x y z : ℤ) :
    lastOpaque (l1 ++ l2) x y z =
      match lastOpaque l2 x y z with
      | some c => some c
      | none => lastOpaque l1 x y z := by
  simp only [lastOpaque, List.foldl_append]
  rw [foldl_paint_eq_lastOpaque]
  rfl

/-- Membership in the stably sorted part list is membership in the
original list. -/
theorem mem_sortParts (p : RPart) (parts : List RPart) :
    p ∈ sortParts parts ↔ p ∈ parts := by
  unfold sortParts
  constructor
  · intro h
    rcases List.mem_append.mp h with h' | h' <;> exact (List.mem_filter.mp h').1
  · intro h
    cases hov : p.is_overlay
    · exact List.mem_append_left _ (List.mem_filter.mpr ⟨h, by simp [hov]⟩)
    · exact List.mem_append_right _ (List.mem_filter.mpr ⟨h, by simp [hov]⟩)

/-- Membership in `intRange` is the inclusive interval test. -/
theorem mem_intRange (v lo hi : ℤ) : v ∈ intRange lo hi ↔ lo ≤ v ∧ v ≤ hi := by
  unfold intRange
  constructor
  · intro h
    rcases List.mem_map.mp h with ⟨i, hi', rfl⟩
    rw [List.mem_range] at hi'
    omega
  · intro h
    refine List.mem_map.mpr ⟨(v - lo).toNat, ?_, ?_⟩
    · rw [List.mem_range]
      omega
    · omega

/-- Membership in the rasterizer output characterized by the keep mask
and the composited buffer. -/
theorem mem_rasterize (g : GridBounds) (parts : List RPart) (solid : Bool) (pb : PixelBlock) :
    pb ∈ rasterize g parts solid ↔
      keepVoxel g parts solid pb.x pb.y pb.z = true ∧
        pb.r = (finalVolume parts pb.x pb.y pb.z).r ∧
        pb.g = (finalVolume parts pb.x pb.y pb.z).g ∧
        pb.b = (finalVolume parts pb.x pb.y pb.z).b ∧
        pb.a = (finalVolume parts pb.x pb.y pb.z).a := by
  unfold rasterize
  constructor
  · intro h
    rcases List.mem_flatMap.mp h with ⟨x, _, h⟩
    rcases List.mem_flatMap.mp h with ⟨y, _, h⟩
    rcases List.mem_filterMap.mp h with ⟨z, _, h⟩
    by_cases hk : keepVoxel g parts solid x y z
    · rw [if_pos hk] at h
      injection h with h
      subst h
      exact ⟨hk, rfl, rfl, rfl, rfl⟩
    · rw [if_neg hk] at h
      exact absurd h (by simp)
  · rintro ⟨hk, hr, hg, hb, ha⟩
    have hgrid : inGrid g pb.x pb.y pb.z = true := by
      unfold keepVoxel hasBlock at hk
      simp only [Bool.and_eq_true] at hk
      exact hk.1.1
    unfold inGrid at hgrid
    simp only [Bool.and_eq_true, decide_eq_true_eq] at hgrid
    refine List.mem_flatMap.mpr ⟨pb.x, (mem_intRange _ _ _).mpr ⟨hgrid.1.1.1.1.1, hgrid.1.1.1.1.2⟩, ?_⟩
    refine List.mem_flatMap.mpr ⟨pb.y, (mem_intRange _ _ _).mpr ⟨hgrid.1.1.1.2, hgrid.1.1.2⟩, ?_⟩
    refine List.mem_filterMap.mpr ⟨pb.z, (mem_intRange _ _ _).mpr ⟨hgrid.1.2, hgrid.2⟩, ?_⟩
    rw [if_pos hk]
    cases pb
    simp only at hr hg hb ha
    rw [hr, hg, hb, ha]

/-- Claim C1: whenever an overlay part claims a voxel with a
non-transparent texture pixel — whatever base parts also claim it,
under any pose and texture — the composited buffer holds an overlay
part's claimed color at that voxel (the last overlay claim in processing
order), never a base part's, and every output block `rasterize` emits at
that voxel carries exactly that overlay color. -/
theorem C1_overlay_wins (g : GridBounds) (parts : List RPart) (solid : Bool) (x y z : ℤ)
    (h : ∃ o ∈ parts, o.is_overlay = true ∧ (opaqueAt o x y z).isSome) :
    ∃ o ∈ parts, ∃ c : RGBA, o.is_overlay = true ∧ opaqueAt o x y z = some c ∧
      finalVolume parts x y z = c ∧
      ∀ pb ∈ rasterize g parts solid, pb.x = x → pb.y = y → pb.z = z →
        pb.r = c.r ∧ pb.g = c.g ∧ pb.b = c.b ∧ pb.a = c.a := by
  rcases h with ⟨o, ho, hov, hsome⟩
  have hoverlays : ∃ p ∈ parts.filter (fun p => p.is_overlay), (opaqueAt p x y z).isSome :=
    ⟨o, List.mem_filter.mpr ⟨ho, by simp [hov]⟩, hsome⟩
  have hlast := lastOpaque_isSome _ x y z hoverlays
  rcases hc : lastOpaque (parts.filter fun p => p.is_overlay) x y z with _ | c
  · rw [hc] at hlast
    simp at hlast
  rcases lastOpaque_mem _ x y z c hc with ⟨w, hw, hwc⟩
  have hwparts : w ∈ parts := (List.mem_filter.mp hw).1
  have hwov : w.is_overlay = true := by
    have := (List.mem_filter.mp hw).2
    simpa using this
  have hvol : finalVolume parts x y z = c := by
    rw [finalVolume_eq]
    unfold sortParts
    rw [lastOpaque_append, hc]
  refine ⟨w, hwparts, c, hwov, hwc, hvol, ?_⟩
  intro pb hpb hx hy hz
  have := (mem_rasterize g parts solid pb).mp hpb
  rw [hx, hy, hz, hvol] at this
  exact ⟨this.2.1, this.2.2.1, this.2.2.2.1, this.2.2.2.2⟩

/-- Test fixture: a base-layer part claiming voxel `(0,0,0)` with an
opaque red pixel (stands for e.g. `Head`, listed early in the rig). -/
def headEx : RPart :=
  ⟨false, fun x y z => if x = 0 ∧ y = 0 ∧ z = 0 then some ⟨200, 10, 10, 255⟩ else none⟩

/-- Test fixture: a base-layer part claiming voxel `(0,0,0)` with an
opaque blue pixel (stands for e.g. `Body`, listed last in the rig). -/
def bodyEx : RPart :=
  ⟨false, fun x y z => if x = 0 ∧ y = 0 ∧ z = 0 then some ⟨10, 10, 200, 255⟩ else none⟩

/-- Test fixture: an overlay part claiming voxel `(0,0,0)` with an
opaque red pixel (stands for e.g. `RightSleeve`, listed before the
jacket). -/
def sleeveEx : RPart :=
  ⟨true, fun x y z => if x = 0 ∧ y = 0 ∧ z = 0 then some ⟨200, 10, 10, 255⟩ else none⟩

/-- Test fixture: an overlay part claiming voxel `(0,0,0)` with an
opaque blue pixel (stands for e.g. `Jacket`, listed last). -/
def jacketEx : RPart :=
  ⟨true, fun x y z => if x = 0 ∧ y = 0 ∧ z = 0 then some ⟨10, 10, 200, 255⟩ else none⟩

/-- Test fixture: the one-cell grid around the origin voxel. -/
def unitGrid : GridBounds := ⟨0, 0, 0, 0, 0, 0⟩

/-- Witness for C1: with a base part and an overlay part both claiming
voxel `(0,0,0)` opaquely, the overlay's blue wins. -/
theorem C1_witness :
    ∃ o ∈ [headEx, jacketEx], ∃ c : RGBA, o.is_overlay = true ∧
      opaqueAt o 0 0 0 = some c ∧ finalVolume [headEx, jacketEx] 0 0 0 = c ∧
      ∀ pb ∈ rasterize unitGrid [headEx, jacketEx] true, pb.x = 0 → pb.y = 0 → pb.z = 0 →
        pb.r = c.r ∧ pb.g = c.g ∧ pb.b = c.b ∧ pb.a = c.a :=
  C1_overlay_wins unitGrid [headEx, jacketEx] true 0 0 0
    ⟨jacketEx, List.mem_cons_of_mem _ (List.mem_cons_self _ _), rfl, rfl⟩

/-- Claim C5 is contradicted by the code: when two parts on the same
layer claim a voxel, `rasterize` keeps the color of the part listed
LATER (the stable sort by `is_overlay` preserves list order and later
writes overwrite earlier ones), not the part listed earlier as the
rig's priority comment promises. Evaluated both for two overlay parts
(the sleeve-vs-jacket case of the rig.py comment) and for two base
parts (head-vs-body): the later part's blue survives, the earlier
part's red does not. -/
theorem C5_later_listed_part_wins :
    rasterize unitGrid [sleeveEx, jacketEx] true = [⟨0, 0, 0, 10, 10, 200, 255⟩] ∧
      rasterize unitGrid [sleeveEx, jacketEx] true ≠ [⟨0, 0, 0, 200, 10, 10, 255⟩] ∧
      rasterize unitGrid [headEx, bodyEx] true = [⟨0, 0, 0, 10, 10, 200, 255⟩] ∧
      rasterize unitGrid [headEx, bodyEx] true ≠ [⟨0, 0, 0, 200, 10, 10, 255⟩] := by
  refine ⟨by decide, by decide, by decide, by decide⟩

/-- If every part's claim at a voxel is transparent or absent, the
painter winner does not exist there. -/
theorem lastOpaque_none_of_transparent (ps : List RPart) (x y z : ℤ)
    (h : ∀ p ∈ ps, opaqueAt p x y z = none) : lastOpaque ps x y z = none := by
  induction ps with
  | nil => rfl
  | cons p ps ih =>
      rw [lastOpaque_cons, ih fun q hq => h q (List.mem_cons_of_mem _ hq),
        h p (List.mem_cons_self _ _)]

/-- Claim C6: the fixed alpha threshold of `rasterize` is `alpha > 0`.
First conjunct: if every texture pixel any part samples has alpha 0 (a
fully transparent texture region, or no sample at all), the output is
empty — such pixels contribute no voxel. Second conjunct: every voxel in
the returned list carries a color that some part actually sampled at
that voxel with alpha above the threshold — never a below-threshold
pixel's color. -/
theorem C6_transparency_threshold :
    (∀ (g : GridBounds) (parts : List RPart) (solid : Bool),
      (∀ p ∈ parts, ∀ x y z : ℤ, ∀ c : RGBA, p.sample x y z = some c → c.a = 0) →
      rasterize g parts solid = []) ∧
    (∀ (g : GridBounds) (parts : List RPart) (solid : Bool), ∀ pb ∈ rasterize g parts solid,
      ∃ p ∈ parts, ∃ c : RGBA, p.sample pb.x pb.y pb.z = some c ∧ 0 < c.a ∧
        pb.r = c.r ∧ pb.g = c.g ∧ pb.b = c.b ∧ pb.a = c.a) := by
  constructor
  · intro g parts solid h
    have hvol : ∀ x y z : ℤ, finalVolume parts x y z = ⟨0, 0, 0, 0⟩ := by
      intro x y z
      rw [finalVolume_eq, lastOpaque_none_of_transparent]
      intro p hp
      unfold opaqueAt
      rcases hs : p.sample x y z with _ | c
      · rfl
      · have hz : c.a = 0 := h p ((mem_sortParts p parts).mp hp) x y z c hs
        show (if 0 < c.a then some c else none) = none
        rw [hz, if_neg (lt_irrefl 0)]
    rcases hempty : rasterize g parts solid with _ | ⟨pb, rest⟩
    · rfl
    · exfalso
      have hpb : pb ∈ rasterize g parts solid := by
        rw [hempty]
        exact List.mem_cons_self _ _
      have hk := ((mem_rasterize g parts solid pb).mp hpb).1
      unfold keepVoxel hasBlock at hk
      simp only [Bool.and_eq_true, decide_eq_true_eq] at hk
      rw [hvol] at hk
      exact absurd hk.1.2 (lt_irrefl 0)
  · intro g parts solid pb hpb
    have hmem := (mem_rasterize g parts solid pb).mp hpb
    have hk := hmem.1
    unfold keepVoxel hasBlock at hk
    simp only [Bool.and_eq_true, decide_eq_true_eq] at hk
    have halpha := hk.1.2
    rcases hc : lastOpaque (sortParts parts) pb.x pb.y pb.z with _ | c
    · rw [finalVolume_eq, hc] at halpha
      exact absurd halpha (lt_irrefl 0)
    · rcases lastOpaque_mem _ _ _ _ c hc with ⟨p, hp, hpc⟩
      have hsample : p.sample pb.x pb.y pb.z = some c ∧ 0 < c.a := by
        unfold opaqueAt at hpc
        rcases hs : p.sample pb.x pb.y pb.z with _ | d
        · rw [hs] at hpc
          exact absurd hpc (by simp)
        · rw [hs] at hpc
          have h2 : (if 0 < d.a then some d else none) = some c := hpc
          by_cases hd : 0 < d.a
          · rw [if_pos hd] at h2
            injection h2 with h2
            subst h2
            exact ⟨rfl, hd⟩
          · rw [if_neg hd] at h2
            exact absurd h2 (by simp)
      have hvol : finalVolume parts pb.x pb.y pb.z = c := by
        rw [finalVolume_eq, hc]
      rw [hvol] at hmem
      exact ⟨p, (mem_sortParts p parts).mp hp, c, hsample.1, hsample.2,
        hmem.2.1, hmem.2.2.1, hmem.2.2.2.1, hmem.2.2.2.2⟩

/-- Test fixture: a part whose texture region is fully transparent
(alpha 0 everywhere it samples). -/
def transparentEx : RPart := ⟨false, fun _ _ _ => some ⟨9, 9, 9, 0⟩⟩

/-- Witness for C6: the fully transparent part produces zero voxels, and
the one output voxel of the opaque blue part carries an above-threshold
sampled color. -/
theorem C6_witness :
    rasterize unitGrid [transparentEx] false = [] ∧
      ∃ p ∈ [bodyEx], ∃ c : RGBA, p.sample 0 0 0 = some c ∧ 0 < c.a ∧
        (10 : ℕ) = c.r ∧ (10 : ℕ) = c.g ∧ (200 : ℕ) = c.b ∧ (255 : ℕ) = c.a := by
  constructor
  · exact C6_transparency_threshold.1 unitGrid [transparentEx] false
      (by
        intro p hp x y z c hc
        rcases List.mem_singleton.mp hp with rfl
        injection hc with hc
        rw [← hc])
  · have h := C6_transparency_threshold.2 unitGrid [bodyEx] true
      ⟨0, 0, 0, 10, 10, 200, 255⟩ (by decide)
    exact h

/-- Test fixture for the hollow-mode block law: a single unposed box part
of size `w x h x d` whose texture is fully opaque, so its inverse-mapped
sampler claims exactly the voxels of the block `[0,w) x [0,h) x [0,d)`
(the strict inside mask of an unrotated box at the origin). -/
def blockPart (w h d : ℕ) : RPart :=
  ⟨false, fun x y z =>
    if 0 ≤ x ∧ x < (w : ℤ) ∧ 0 ≤ y ∧ y < (h : ℤ) ∧ 0 ≤ z ∧ z < (d : ℤ) then
      some ⟨255, 255, 255, 255⟩
    else none⟩

/-- The grid bounds step 1 computes for that part: the AABB corners are
`0` and the size, and `ix_max = int(max) + 1`, giving the inclusive
ranges `[0, size + 1]`. -/
def gridFor (w h d : ℕ) : GridBounds :=
  ⟨0, (w : ℤ) + 1, 0, (h : ℤ) + 1, 0, (d : ℤ) + 1⟩

/-- Occupancy for the block fixture is exactly block membership. -/
theorem hasBlock_blockPart (w h d : ℕ) (x y z : ℤ) :
    hasBlock (gridFor w h d) [blockPart w h d] x y z = true ↔
      (0 ≤ x ∧ x < (w : ℤ) ∧ 0 ≤ y ∧ y < (h : ℤ) ∧ 0 ≤ z ∧ z < (d : ℤ)) := by
  unfold hasBlock
  by_cases hcond : 0 ≤ x ∧ x < (w : ℤ) ∧ 0 ≤ y ∧ y < (h : ℤ) ∧ 0 ≤ z ∧ z < (d : ℤ)
  · have hvol : finalVolume [blockPart w h d] x y z = ⟨255, 255, 255, 255⟩ := by
      rw [finalVolume_eq]
      have hs : sortParts [blockPart w h d] = [blockPart w h d] := rfl
      rw [hs, lastOpaque_cons]
      have h3 : opaqueAt (blockPart w h d) x y z = some ⟨255, 255, 255, 255⟩ := by
        simp [opaqueAt, blockPart, hcond]
      rw [h3]
      rfl
    rw [hvol]
    simp only [Bool.and_eq_true, decide_eq_true_eq]
    constructor
    · intro _
      exact hcond
    · intro _
      unfold inGrid gridFor
      simp only [Bool.and_eq_true, decide_eq_true_eq]
      refine ⟨⟨?_, ?_⟩, by norm_num⟩ <;> omega
  · have hvol : finalVolume [blockPart w h d] x y z = ⟨0, 0, 0, 0⟩ := by
      rw [finalVolume_eq]
      have hs : sortParts [blockPart w h d] = [blockPart w h d] := rfl
      rw [hs, lastOpaque_cons]
      have h3 : opaqueAt (blockPart w h d) x y z = none := by
        simp [opaqueAt, blockPart, hcond]
      rw [h3]
      rfl
    rw [hvol]
    simp only [Bool.and_eq_true, decide_eq_true_eq]
    constructor
    · intro htrue
      exact absurd htrue.2 (by norm_num)
    · intro hq
      exact absurd hq hcond

/-- The hollow keep mask for the block fixture: the block minus its
fully interior sub-block. -/
theorem keep_blockPart (w h d : ℕ) (x y z : ℤ) :
    keepVoxel (gridFor w h d) [blockPart w h d] false x y z = true ↔
      ((0 ≤ x ∧ x < (w : ℤ) ∧ 0 ≤ y ∧ y < (h : ℤ) ∧ 0 ≤ z ∧ z < (d : ℤ)) ∧
        ¬(1 ≤ x ∧ x ≤ (w : ℤ) - 2 ∧ 1 ≤ y ∧ y ≤ (h : ℤ) - 2 ∧ 1 ≤ z ∧ z ≤ (d : ℤ) - 2)) := by
  unfold keepVoxel internalVoxel
  simp only [Bool.false_or, Bool.and_eq_true, Bool.not_eq_true', Bool.eq_false_iff,
    ne_eq, hasBlock_blockPart]
  omega

/-- The integer range list has no duplicates. -/
theorem intRange_nodup (lo hi : ℤ) : (intRange lo hi).Nodup := by
  unfold intRange
  refine List.Nodup.map ?_ (List.nodup_range _)
  intro i j hij
  simp only at hij
  omega

/-- The output voxel positions of `rasterize`, written as the same
nested iteration that produced them. -/
theorem rasterize_map_pos (g : GridBounds) (parts : List RPart) (solid : Bool) :
    (rasterize g parts solid).map (fun pb => (pb.x, pb.y, pb.z)) =
      (intRange g.xlo g.xhi).flatMap fun x =>
        (intRange g.ylo g.yhi).flatMap fun y =>
          (intRange g.zlo g.zhi).filterMap fun z =>
            if keepVoxel g parts solid x y z then some (x, y, z) else none := by
  unfold rasterize
  rw [List.map_flatMap]
  congr 1
  funext x
  rw [List.map_flatMap]
  congr 1
  funext y
  rw [List.map_filterMap]
  congr 1
  funext z
  by_cases hk : keepVoxel g parts solid x y z
  · rw [if_pos hk, if_pos hk]
    rfl
  · rw [if_neg hk, if_neg hk]
    rfl

/-- Membership in the nested position iteration. -/
theorem mem_pos_iteration (g : GridBounds) (parts : List RPart) (solid : Bool) (v : ℤ × ℤ × ℤ) :
    (v ∈
      (intRange g.xlo g.xhi).flatMap fun x =>
        (intRange g.ylo g.yhi).flatMap fun y =>
          (intRange g.zlo g.zhi).filterMap fun z =>
            if keepVoxel g parts solid x y z then some (x, y, z) else none) ↔
      (g.xlo ≤ v.1 ∧ v.1 ≤ g.xhi ∧ g.ylo ≤ v.2.1 ∧ v.2.1 ≤ g.yhi ∧
        g.zlo ≤ v.2.2 ∧ v.2.2 ≤ g.zhi) ∧
        keepVoxel g parts solid v.1 v.2.1 v.2.2 = true := by
  constructor
  · intro hmem
    rcases List.mem_flatMap.mp hmem with ⟨x, hx, hmem⟩
    rcases List.mem_flatMap.mp hmem with ⟨y, hy, hmem⟩
    rcases List.mem_filterMap.mp hmem with ⟨z, hz, hmem⟩
    by_cases hk : keepVoxel g parts solid x y z
    · rw [if_pos hk] at hmem
      injection hmem with hmem
      subst hmem
      rw [mem_intRange] at hx hy hz
      exact ⟨⟨hx.1, hx.2, hy.1, hy.2, hz.1, hz.2⟩, hk⟩
    · rw [if_neg hk] at hmem
      exact absurd hmem (by simp)
  · rintro ⟨⟨h1, h2, h3, h4, h5, h6⟩, hk⟩
    refine List.mem_flatMap.mpr ⟨v.1, (mem_intRange _ _ _).mpr ⟨h1, h2⟩, ?_⟩
    refine List.mem_flatMap.mpr ⟨v.2.1, (mem_intRange _ _ _).mpr ⟨h3, h4⟩, ?_⟩
    refine List.mem_filterMap.mpr ⟨v.2.2, (mem_intRange _ _ _).mpr ⟨h5, h6⟩, ?_⟩
    rw [if_pos hk]

/-- The position list has no duplicates: the grid is traversed cell by
cell and each cell emits at most one block. -/
theorem pos_iteration_nodup (g : GridBounds) (parts : List RPart) (solid : Bool) :
    ((intRange g.xlo g.xhi).flatMap fun x =>
        (intRange g.ylo g.yhi).flatMap fun y =>
          (intRange g.zlo g.zhi).filterMap fun z =>
            if keepVoxel g parts solid x y z then some (x, y, z) else none).Nodup := by
  have hsome : ∀ (x y z : ℤ) (v : ℤ × ℤ × ℤ),
      (if keepVoxel g parts solid x y z then some (x, y, z) else none) = some v →
        v = (x, y, z) := by
    intro x y z v hv
    by_cases hk : keepVoxel g parts solid x y z
    · rw [if_pos hk] at hv
      exact (Option.some.inj hv).symm
    · rw [if_neg hk] at hv
      exact absurd hv (by simp)
  have hinner : ∀ x y, ((intRange g.zlo g.zhi).filterMap fun z =>
      if keepVoxel g parts solid x y z then some (x, y, z) else none).Nodup := by
    intro x y
    refine List.Nodup.filterMap ?_ (intRange_nodup _ _)
    intro z1 z2 v h1 h2
    have e1 := hsome x y z1 v h1
    have e2 := hsome x y z2 v h2
    have e := e1.symm.trans e2
    simp only [Prod.mk.injEq] at e
    exact e.2.2
  have hmid : ∀ x, ((intRange g.ylo g.yhi).flatMap fun y =>
      (intRange g.zlo g.zhi).filterMap fun z =>
        if keepVoxel g parts solid x y z then some (x, y, z) else none).Nodup := by
    intro x
    refine List.nodup_flatMap.mpr ⟨fun y _ => hinner x y, ?_⟩
    refine List.Pairwise.imp ?_ (intRange_nodup g.ylo g.yhi)
    intro y1 y2 hne v hv1 hv2
    rcases List.mem_filterMap.mp hv1 with ⟨z1, _, h1⟩
    rcases List.mem_filterMap.mp hv2 with ⟨z2, _, h2⟩
    have e := (hsome x y1 z1 v h1).symm.trans (hsome x y2 z2 v h2)
    simp only [Prod.mk.injEq] at e
    exact hne e.2.1
  refine List.nodup_flatMap.mpr ⟨fun x _ => hmid x, ?_⟩
  refine List.Pairwise.imp ?_ (intRange_nodup g.xlo g.xhi)
  intro x1 x2 hne v hv1 hv2
  rcases List.mem_flatMap.mp hv1 with ⟨y1, _, hv1⟩
  rcases List.mem_flatMap.mp hv2 with ⟨y2, _, hv2⟩
  rcases List.mem_filterMap.mp hv1 with ⟨z1, _, h1⟩
  rcases List.mem_filterMap.mp hv2 with ⟨z2, _, h2⟩
  have e := (hsome x1 y1 z1 v h1).symm.trans (hsome x2 y2 z2 v h2)
  simp only [Prod.mk.injEq] at e
  exact hne e.1

/-- The set of voxel positions the keep mask retains, as a finite set
over the grid box. -/
def keepFinset (g : GridBounds) (parts : List RPart) (solid : Bool) : Finset (ℤ × ℤ × ℤ) :=
  (Finset.Icc g.xlo g.xhi ×ˢ Finset.Icc g.ylo g.yhi ×ˢ Finset.Icc g.zlo g.zhi).filter
    fun v => keepVoxel g parts solid v.1 v.2.1 v.2.2 = true

/-- The rasterizer emits exactly one block per kept grid cell, so its
output length is the cardinality of the kept set. -/
theorem rasterize_length_eq_card (g : GridBounds) (parts : List RPart) (solid : Bool) :
    (rasterize g parts solid).length = (keepFinset g parts solid).card := by
  have h1 : (rasterize g parts solid).length =
      ((rasterize g parts solid).map fun pb => (pb.x, pb.y, pb.z)).length :=
    (List.length_map _ _).symm
  rw [h1, rasterize_map_pos]
  have hnd := pos_iteration_nodup g parts solid
  rw [← List.toFinset_card_of_nodup hnd]
  congr 1
  ext v
  rw [List.mem_toFinset, mem_pos_iteration]
  unfold keepFinset
  rw [Finset.mem_filter, Finset.mem_product, Finset.mem_product, Finset.mem_Icc,
    Finset.mem_Icc, Finset.mem_Icc]
  constructor
  · rintro ⟨⟨a1, a2, a3, a4, a5, a6⟩, hk⟩
    exact ⟨⟨⟨a1, a2⟩, ⟨a3, a4⟩, a5, a6⟩, hk⟩
  · rintro ⟨⟨⟨a1, a2⟩, ⟨a3, a4⟩, a5, a6⟩, hk⟩
    exact ⟨⟨a1, a2, a3, a4, a5, a6⟩, hk⟩

/-- For the block fixture, the kept set in hollow mode is the block
minus its fully interior sub-block. -/
theorem keepFinset_blockPart (w h d : ℕ) :
    keepFinset (gridFor w h d) [blockPart w h d] false =
      (Finset.Icc (0 : ℤ) ((w : ℤ) - 1) ×ˢ Finset.Icc (0 : ℤ) ((h : ℤ) - 1) ×ˢ
          Finset.Icc (0 : ℤ) ((d : ℤ) - 1)) \
        (Finset.Icc (1 : ℤ) ((w : ℤ) - 2) ×ˢ Finset.Icc (1 : ℤ) ((h : ℤ) - 2) ×ˢ
          Finset.Icc (1 : ℤ) ((d : ℤ) - 2)) := by
  ext v
  simp only [keepFinset, Finset.mem_filter, Finset.mem_sdiff, Finset.mem_product,
    Finset.mem_Icc, keep_blockPart]
  simp only [gridFor]
  omega

/-- Cardinality of a triple product of integer intervals. -/
theorem card_tripleIcc (a1 b1 a2 b2 a3 b3 : ℤ) :
    ((Finset.Icc a1 b1 ×ˢ Finset.Icc a2 b2 ×ˢ Finset.Icc a3 b3)).card =
      (b1 + 1 - a1).toNat * ((b2 + 1 - a2).toNat * (b3 + 1 - a3).toNat) := by
  rw [Finset.card_product, Finset.card_product, Int.card_Icc, Int.card_Icc, Int.card_Icc]

/-- The hollow keep mask keeps exactly the occupied voxels with at
least one unoccupied axis-aligned neighbor. -/
theorem keep_hollow_iff (g : GridBounds) (parts : List RPart) (x y z : ℤ) :
    keepVoxel g parts false x y z = true ↔
      hasBlock g parts x y z = true ∧
        ¬(hasBlock g parts (x + 1) y z = true ∧ hasBlock g parts (x - 1) y z = true ∧
          hasBlock g parts x (y + 1) z = true ∧ hasBlock g parts x (y - 1) z = true ∧
          hasBlock g parts x y (z + 1) = true ∧ hasBlock g parts x y (z - 1) = true) := by
  unfold keepVoxel internalVoxel
  simp only [Bool.false_or, Bool.and_eq_true, Bool.not_eq_true', Bool.eq_false_iff, ne_eq]
  tauto

/-- Claim C2: in hollow mode (`solid = False`) `rasterize` keeps exactly
the occupied voxels with at least one of their six axis-aligned
neighbors unoccupied (first conjunct, for every grid, part list and
voxel); for the single unposed fully-opaque `w x h x d` box it emits
exactly `w*h*d - (w-2)*(h-2)*(d-2)` voxels — the fully interior
sub-block is removed when every dimension is at least 3 and nothing is
removed otherwise, since then `(w-2)*(h-2)*(d-2) = 0` in truncated
subtraction (second conjunct); in particular the 8x8x8 block yields
`8^3 - 6^3` voxels (third conjunct). -/
theorem C2_hollow_erosion :
    (∀ (g : GridBounds) (parts : List RPart) (x y z : ℤ),
      (∃ pb ∈ rasterize g parts false, pb.x = x ∧ pb.y = y ∧ pb.z = z) ↔
        hasBlock g parts x y z = true ∧
          ¬(hasBlock g parts (x + 1) y z = true ∧ hasBlock g parts (x - 1) y z = true ∧
            hasBlock g parts x (y + 1) z = true ∧ hasBlock g parts x (y - 1) z = true ∧
            hasBlock g parts x y (z + 1) = true ∧ hasBlock g parts x y (z - 1) = true)) ∧
    (∀ w h d : ℕ,
      (rasterize (gridFor w h d) [blockPart w h d] false).length =
        w * h * d - (w - 2) * (h - 2) * (d - 2)) ∧
    (rasterize (gridFor 8 8 8) [blockPart 8 8 8] false).length = 8 ^ 3 - 6 ^ 3 := by
  have hcount : ∀ w h d : ℕ,
      (rasterize (gridFor w h d) [blockPart w h d] false).length =
        w * h * d - (w - 2) * (h - 2) * (d - 2) := by
    intro w h d
    rw [rasterize_length_eq_card, keepFinset_blockPart]
    have hsub : (Finset.Icc (1 : ℤ) ((w : ℤ) - 2) ×ˢ Finset.Icc (1 : ℤ) ((h : ℤ) - 2) ×ˢ
        Finset.Icc (1 : ℤ) ((d : ℤ) - 2)) ⊆
        (Finset.Icc (0 : ℤ) ((w : ℤ) - 1) ×ˢ Finset.Icc (0 : ℤ) ((h : ℤ) - 1) ×ˢ
          Finset.Icc (0 : ℤ) ((d : ℤ) - 1)) := by
      refine Finset.product_subset_product (Finset.Icc_subset_Icc (by norm_num) (by omega)) ?_
      exact Finset.product_subset_product (Finset.Icc_subset_Icc (by norm_num) (by omega))
        (Finset.Icc_subset_Icc (by norm_num) (by omega))
    rw [Finset.card_sdiff hsub, card_tripleIcc, card_tripleIcc]
    have e1 : ((w : ℤ) - 1 + 1 - 0).toNat = w := by omega
    have e2 : ((h : ℤ) - 1 + 1 - 0).toNat = h := by omega
    have e3 : ((d : ℤ) - 1 + 1 - 0).toNat = d := by omega
    have f1 : ((w : ℤ) - 2 + 1 - 1).toNat = w - 2 := by omega
    have f2 : ((h : ℤ) - 2 + 1 - 1).toNat = h - 2 := by omega
    have f3 : ((d : ℤ) - 2 + 1 - 1).toNat = d - 2 := by omega
    rw [e1, e2, e3, f1, f2, f3]
    congr 1 <;> ring
  refine ⟨?_, hcount, ?_⟩
  · intro g parts x y z
    constructor
    · rintro ⟨pb, hpb, hx, hy, hz⟩
      have hk := ((mem_rasterize g parts false pb).mp hpb).1
      rw [hx, hy, hz] at hk
      exact (keep_hollow_iff g parts x y z).mp hk
    · intro hco
      have hk := (keep_hollow_iff g parts x y z).mpr hco
      refine ⟨⟨x, y, z, (finalVolume parts x y z).r, (finalVolume parts x y z).g,
        (finalVolume parts x y z).b, (finalVolume parts x y z).a⟩, ?_, rfl, rfl, rfl⟩
      exact (mem_rasterize g parts false _).mpr ⟨hk, rfl, rfl, rfl, rfl⟩
  · rw [hcount 8 8 8]
    norm_num

/-- Embeds Python `int()` on a rational: truncation toward zero. -/
def pyInt (q : ℚ) : ℤ := q.num / (q.den : ℤ)

/-- The float tolerance `epsilon = 0.001` of `get_texture_coord`,
modelled as the exact rational. -/
def epsilonRat : ℚ := 1 / 1000

/-- Embeds `RigFactory._create_box_uv`: the box-UV unfolding of a
`(u, v, w, h, d)` box into the six face rectangles, keyed by face name
(a missing key models a face absent from the dict). -/
def create_box_uv (u v w h d : ℤ) : String → Option (ℤ × ℤ × ℤ × ℤ) := fun face =>
  if face = "top" then some (u + d, v, w, d)
  else if face = "bottom" then some (u + d + w, v, w, d)
  else if face = "right" then some (u, v + d, d, h)
  else if face = "front" then some (u + d, v + d, w, h)
  else if face = "left" then some (u + d + w, v + d, d, h)
  else if face = "back" then some (u + d + w + d, v + d, w, h)
  else none

/-- The tail of `BoxPart.get_texture_coord`: look the selected face up in
the uv map, truncate the offsets with `int()`, and clamp to the face
rectangle. -/
def faceLookup (uv_map : String → Option (ℤ × ℤ × ℤ × ℤ)) (face : String)
    (u_off v_off : ℚ) : Option (ℤ × ℤ) :=
  match uv_map face with
  | some (u, v, tw, th) =>
      if 0 ≤ pyInt u_off ∧ pyInt u_off < tw ∧ 0 ≤ pyInt v_off ∧ pyInt v_off < th then
        some (u + pyInt u_off, v + pyInt v_off)
      else none
  | none => none

/-- Embeds `BoxPart.get_texture_coord` over exact rationals (the float
local coordinates and the float tolerance are modelled exactly): bounds
check with tolerance, then the `if on_top / elif on_bottom / elif
on_right / elif on_left / elif on_front / elif on_back` chain of
within-epsilon face tests, then UV lookup and clamping; `None` when no
face test fires. -/
def get_texture_coord (w h d : ℤ) (uv_map : String → Option (ℤ × ℤ × ℤ × ℤ))
    (lx ly lz : ℚ) : Option (ℤ × ℤ) :=
  if ¬(-epsilonRat ≤ lx ∧ lx ≤ (w : ℚ) + epsilonRat ∧ -epsilonRat ≤ ly ∧
      ly ≤ (h : ℚ) + epsilonRat ∧ -epsilonRat ≤ lz ∧ lz ≤ (d : ℚ) + epsilonRat) then
    none
  else if |ly - (h : ℚ)| < epsilonRat then faceLookup uv_map "top" lx lz
  else if |ly| < epsilonRat then faceLookup uv_map "bottom" lx lz
  else if |lx - (w : ℚ)| < epsilonRat then faceLookup uv_map "right" lz ((h : ℚ) - ly)
  else if |lx| < epsilonRat then faceLookup uv_map "left" lz ((h : ℚ) - ly)
  else if |lz| < epsilonRat then faceLookup uv_map "front" lx ((h : ℚ) - ly)
  else if |lz - (d : ℚ)| < epsilonRat then faceLookup uv_map "back" lx ((h : ℚ) - ly)
  else none

/-- Claim C4 is false on the code: the center `(4, 4, 4)` of the `Head`
box (size 8x8x8, all six faces present in its uv map) is strictly inside
the volume, farther than the tolerance from every face, and
`get_texture_coord` returns no mapping instead of projecting onto a
nearest face. -/
theorem C4_counterexample :
    get_texture_coord 8 8 8 (create_box_uv 0 0 8 8 8) 4 4 4 = none := by
  unfold get_texture_coord
  rw [if_neg, if_neg, if_neg, if_neg, if_neg, if_neg, if_neg]
  · norm_num [epsilonRat]
  · norm_num [epsilonRat]
  · norm_num [epsilonRat]
  · norm_num [epsilonRat]
  · norm_num [epsilonRat]
  · norm_num [epsilonRat]
  · norm_num [epsilonRat]

/-- Claim C4 as amended: `get_texture_coord` returns a mapping only for
points within the `epsilon` tolerance of one of the six face planes; for
every local point farther than the tolerance from all six faces — in
particular every strictly interior point — it returns `None`. (The
nearest-face minimum-distance projection for interior points lives in
the rasterizer's vectorized argmin, not in this method.) -/
theorem C4_interior_no_mapping (w h d : ℤ) (uv_map : String → Option (ℤ × ℤ × ℤ × ℤ))
    (lx ly lz : ℚ)
    (h1 : ¬(|lx| < epsilonRat)) (h2 : ¬(|lx - (w : ℚ)| < epsilonRat))
    (h3 : ¬(|ly| < epsilonRat)) (h4 : ¬(|ly - (h : ℚ)| < epsilonRat))
    (h5 : ¬(|lz| < epsilonRat)) (h6 : ¬(|lz - (d : ℚ)| < epsilonRat)) :
    get_texture_coord w h d uv_map lx ly lz = none := by
  unfold get_texture_coord
  rw [if_neg h4, if_neg h3, if_neg h2, if_neg h1, if_neg h5, if_neg h6]
  split_ifs <;> rfl

/-- Witness for the amended C4 at the concrete interior point. -/
theorem C4_witness :
    get_texture_coord 8 8 8 (create_box_uv 0 0 8 8 8) 4 4 4 = none :=
  C4_interior_no_mapping 8 8 8 (create_box_uv 0 0 8 8 8) 4 4 4
    (by norm_num [epsilonRat]) (by norm_num [epsilonRat]) (by norm_num [epsilonRat])
    (by norm_num [epsilonRat]) (by norm_num [epsilonRat]) (by norm_num [epsilonRat])

/-- Embeds `ItemFactory.COLORS` (material name to RGB triple). -/
def itemColors : String → Option (ℕ × ℕ × ℕ) := fun m =>
  if m = "wood" then some (141, 118, 77)
  else if m = "stone" then some (131, 131, 131)
  else if m = "iron" then some (200, 200, 200)
  else if m = "gold" then some (250, 235, 41)
  else if m = "diamond" then some (47, 222, 216)
  else if m = "netherite" then some (66, 60, 63)
  else if m = "stick" then some (105, 78, 47)
  else if m = "string" then some (230, 230, 230)
  else if m = "bow_wood" then some (141, 118, 77)
  else none

/-- Embeds `ItemFactory.COLORS.get(material, default)`. -/
def colorsGet (m : String) (dflt : ℕ × ℕ × ℕ) : ℕ × ℕ × ℕ := (itemColors m).getD dflt

/-- The parameters of `BoxPart.__init__` after `self`, with whether each
has a default value (`primitives.py` line 181:
`name, size, uv_map, parent=None, is_overlay=False`). -/
def boxPartInitParams : List (String × Bool) :=
  [("name", false), ("size", false), ("uv_map", false), ("parent", true), ("is_overlay", true)]

/-- Python call binding for a function call with `positionalCount`
positional arguments and the given keyword names: a keyword that names
no parameter raises `TypeError: unexpected keyword argument`; after
that, a parameter with no default that is bound neither positionally nor
by keyword raises `TypeError: missing argument`. -/
def bindCall (params : List (String × Bool)) (positionalCount : ℕ) (kwargs : List String) :
    Except String Unit :=
  match kwargs.find? (fun k => !(params.any fun p => p.1 = k)) with
  | some k => .error ("TypeError: unexpected keyword argument " ++ k)
  | none =>
      match (params.enum.find? fun pi =>
          !(decide (pi.1 < positionalCount) || kwargs.contains pi.2.1 || pi.2.2)) with
      | some pi => .error ("TypeError: missing argument " ++ pi.2.1)
      | none => .ok ()

/-- One geometry part of an item, holding the fields the `make_part`
helpers of `items.py` would set. -/
structure ItemPart where
  name : String
  size : ℚ × ℚ × ℚ
  color : ℕ × ℕ × ℕ
  origin : ℚ × ℚ × ℚ

/-- Embeds the `make_part` closure of `ItemFactory.create_sword` and
`create_bow`: compute the size from the two corners, then perform the
call `BoxPart(name, size=(w, h, d), color=col, parent=parent)` — one
positional argument and the keywords `size`, `color`, `parent` bound
against `BoxPart.__init__`. -/
def make_part (name : String) (min_p max_p : ℚ × ℚ × ℚ) (col : ℕ × ℕ × ℕ) :
    Except String ItemPart :=
  match bindCall boxPartInitParams 1 ["size", "color", "parent"] with
  | .error e => .error e
  | .ok _ =>
      .ok ⟨name, (max_p.1 - min_p.1, max_p.2.1 - min_p.2.1, max_p.2.2 - min_p.2.2), col, min_p⟩

/-- Embeds `ItemFactory.create_sword`. -/
def create_sword (material : String) : Except String (List ItemPart) := do
  let blade_color := colorsGet material ((itemColors "iron").getD (0, 0, 0))
  let handle_color := (itemColors "stick").getD (0, 0, 0)
  let p1 ← make_part (material ++ "_sword_handle") (1, -13, 1) (3, -8, 3) handle_color
  let p2 ← make_part (material ++ "_sword_guard") (0, -14, 1) (4, -13, 3) blade_color
  let p3 ← make_part (material ++ "_sword_blade") (1, -24, 1) (3, -14, 3) blade_color
  return [p1, p2, p3]

/-- Embeds `ItemFactory.create_bow`. -/
def create_bow : Except String (List ItemPart) := do
  let wood_color := (itemColors "bow_wood").getD (0, 0, 0)
  let string_color := (itemColors "string").getD (0, 0, 0)
  let p1 ← make_part "bow_grip" (1, -12, -1) (3, -10, 1) wood_color
  let p2 ← make_part "bow_upper_1" (1, -12, -3) (3, -10, -1) wood_color
  let p3 ← make_part "bow_upper_2" (1, -12, -5) (3, -10, -3) wood_color
  let p4 ← make_part "bow_lower_1" (1, -12, 1) (3, -10, 3) wood_color
  let p5 ← make_part "bow_lower_2" (1, -12, 3) (3, -10, 5) wood_color
  let p6 ← make_part "bow_string" (1/2, -23/2, -5) (1, -21/2, 5) string_color
  return [p1, p2, p3, p4, p5, p6]

/-- Claim C9 is contradicted by the code: `items.py` passes the keyword
`color` (and no `uv_map`) to `BoxPart`, whose `__init__` accepts no such
parameter, so every `create_sword` call — for every material string —
and every `create_bow` call raises `TypeError` instead of returning a
part list. The material-to-color fallback itself does work: an unknown
material maps to the iron color. -/
theorem C9_item_factory_raises :
    (∀ material : String,
      create_sword material = .error "TypeError: unexpected keyword argument color") ∧
      create_bow = .error "TypeError: unexpected keyword argument color" ∧
      colorsGet "unobtainium" ((itemColors "iron").getD (0, 0, 0)) = (200, 200, 200) := by
  refine ⟨fun material => rfl, rfl, rfl⟩

/-- Default node, for out-of-range arena lookups (never reached on the
rigs below). -/
instance : Inhabited (NodeData ℝ) := ⟨⟨"", none, (0, 0, 0), (0, 0, 0)⟩⟩

/-- Embeds `Node.get_local_matrix`:
`translation_matrix(*origin) * rotation_matrix(*rotation)`. -/
noncomputable def local_matrix (nd : NodeData ℝ) : Mat4 :=
  multiply_matrix (translation_matrix nd.origin.1 nd.origin.2.1 nd.origin.2.2)
    (rotation_matrix nd.rotation.1 nd.rotation.2.1 nd.rotation.2.2)

/-- Embeds `Node.get_world_matrix`:
`parent.get_world_matrix() * local` when a parent exists, else local.
The parent chain is walked through the arena indices; the fuel bounds
the recursion depth (the Python recursion terminates because the rig is
a tree; every rig below has parent index smaller than child index, so a
fuel of the node count always suffices). -/
noncomputable def world_matrix (nodes : List (NodeData ℝ)) : ℕ → ℕ → Mat4
  | 0, i => local_matrix (nodes.getD i default)
  | fuel + 1, i =>
      match (nodes.getD i default).parent with
      | none => local_matrix (nodes.getD i default)
      | some j => multiply_matrix (world_matrix nodes fuel j) (local_matrix (nodes.getD i default))

/-- Embeds the node hierarchy of `RigFactory.create_rig`: indices
0 root, 1 BodyJoint, 2 HeadJoint, 3 RightArmJoint, 4 LeftArmJoint,
5 RightLegJoint, 6 LeftLegJoint, then the box part nodes in the rig's
priority-list order: 7 Head, 8 Hat, 9 RightArm, 10 RightSleeve,
11 LeftArm, 12 LeftSleeve, 13 RightLeg, 14 RightPants, 15 LeftLeg,
16 LeftPants, 17 Body, 18 Jacket; origins as assigned by the factory
(`arm_w = 3` for the slim model, else `4`, arm pivot `12 - arm_w`). -/
noncomputable def create_rig_nodes (model_type : String) : List (NodeData ℝ) :=
  let arm_w : ℝ := if model_type = "slim" then 3 else 4
  [⟨"root", none, (0, 0, 0), (0, 0, 0)⟩,
   ⟨"BodyJoint", some 0, (0, 12, 0), (0, 0, 0)⟩,
   ⟨"HeadJoint", some 1, (0, 12, 0), (0, 0, 0)⟩,
   ⟨"RightArmJoint", some 1, (4, 12 - arm_w, 0), (0, 0, 0)⟩,
   ⟨"LeftArmJoint", some 1, (-4, 12 - arm_w, 0), (0, 0, 0)⟩,
   ⟨"RightLegJoint", some 1, (2, 0, 0), (0, 0, 0)⟩,
   ⟨"LeftLegJoint", some 1, (-2, 0, 0), (0, 0, 0)⟩,
   ⟨"Head", some 2, (-4, 0, -4), (0, 0, 0)⟩,
   ⟨"Hat", some 2, (-5, -1, -5), (0, 0, 0)⟩,
   ⟨"RightArm", some 3, (0, arm_w - 12, -2), (0, 0, 0)⟩,
   ⟨"RightSleeve", some 3, (-1, arm_w - 12 - 1, -3), (0, 0, 0)⟩,
   ⟨"LeftArm", some 4, (-arm_w, arm_w - 12, -2), (0, 0, 0)⟩,
   ⟨"LeftSleeve", some 4, (-arm_w - 1, arm_w - 12 - 1, -3), (0, 0, 0)⟩,
   ⟨"RightLeg", some 5, (-2, -12, -2), (0, 0, 0)⟩,
   ⟨"RightPants", some 5, (-3, -13, -3), (0, 0, 0)⟩,
   ⟨"LeftLeg", some 6, (-2, -12, -2), (0, 0, 0)⟩,
   ⟨"LeftPants", some 6, (-3, -13, -3), (0, 0, 0)⟩,
   ⟨"Body", some 1, (-4, 0, -2), (0, 0, 0)⟩,
   ⟨"Jacket", some 1, (-5, -1, -3), (0, 0, 0)⟩]

/-- Embeds `PoseApplicator.POSES["t_pose"]`: a 90 degree Z rotation on
each arm joint and the absolute position overrides `(±4, 8, 0)`. -/
noncomputable def t_pose_data : List (String × PoseEntry ℝ) :=
  [("RightArmJoint", PoseEntry.modern (some (none, none, some 90))
      (some (some 4, some 8, some 0))),
   ("LeftArmJoint", PoseEntry.modern (some (none, none, some (-90)))
      (some (some (-4), some 8, some 0)))]

/-- The rig node arena after `apply_pose(rig, POSES["t_pose"])`. -/
noncomputable def posed_nodes (model_type : String) : List (NodeData ℝ) :=
  (apply_pose (create_rig_nodes model_type) t_pose_data).1

/-- The 8 local corners `get_aabb_world` transforms, in source order. -/
noncomputable def corner_list (w h d : ℝ) : List (ℝ × ℝ × ℝ) :=
  [(0, 0, 0), (w, 0, 0), (0, h, 0), (0, 0, d), (w, h, 0), (w, 0, d), (0, h, d), (w, h, d)]

/-- The `max_y` component of `BoxPart.get_aabb_world`: the maximum world
Y over the 8 transformed corners (the source folds `max` from `-inf`
over the corners; seeding with the first corner's value is the same
maximum). -/
noncomputable def aabb_max_y (m : Mat4) (w h d : ℝ) : ℝ :=
  ((corner_list w h d).map fun c => (transform_point m c.1 c.2.1 c.2.2).2.1).foldl max
    (transform_point m 0 0 0).2.1

/-- Rotation entries at 0 degrees. -/
theorem rotation_matrix_zero : rotation_matrix 0 0 0 =
    ⟨1, 0, 0, 0, 0, 1, 0, 0, 0, 0, 1, 0, 0, 0, 0, 1⟩ := by
  rw [rotation_matrix_eval]
  have h0 : radians 0 = 0 := by
    unfold radians
    ring
  rw [h0, Real.cos_zero, Real.sin_zero]
  simp only [Mat4.mk.injEq]
  norm_num

/-- Rotation entries at 90 degrees about Z. -/
theorem rotation_matrix_z90 : rotation_matrix 0 0 90 =
    ⟨0, -1, 0, 0, 1, 0, 0, 0, 0, 0, 1, 0, 0, 0, 0, 1⟩ := by
  rw [rotation_matrix_eval]
  have h0 : radians 0 = 0 := by
    unfold radians
    ring
  have h90 : radians 90 = Real.pi / 2 := by
    unfold radians
    ring
  rw [h0, h90, Real.cos_zero, Real.sin_zero, Real.cos_pi_div_two, Real.sin_pi_div_two]
  simp only [Mat4.mk.injEq]
  norm_num

/-- Evaluation of the posed slim rig at the nodes on the right-arm and
body chains. -/
theorem posed_slim_nodes :
    (posed_nodes "slim").getD 0 default = ⟨"root", none, (0, 0, 0), (0, 0, 0)⟩ ∧
    (posed_nodes "slim").getD 1 default = ⟨"BodyJoint", some 0, (0, 12, 0), (0, 0, 0)⟩ ∧
    (posed_nodes "slim").getD 3 default = ⟨"RightArmJoint", some 1, (4, 8, 0), (0, 0, 90)⟩ ∧
    (posed_nodes "slim").getD 9 default = ⟨"RightArm", some 3, (0, -9, -2), (0, 0, 0)⟩ ∧
    (posed_nodes "slim").getD 17 default = ⟨"Body", some 1, (-4, 0, -2), (0, 0, 0)⟩ := by
  refine ⟨?_, ?_, ?_, ?_, ?_⟩ <;>
    · simp [posed_nodes, apply_pose, poseStep, applyEntry, create_rig_nodes, t_pose_data,
        List.getD]
      try norm_num

/-- World matrix of the slim rig's `RightArm` box after the T-pose: the
90 degree Z rotation about the overridden pivot `(4, 8, 0)` under
`BodyJoint`. -/
theorem slim_W9 : world_matrix (posed_nodes "slim") 19 9 =
    ⟨0, -1, 0, 13, 1, 0, 0, 20, 0, 0, 1, -2, 0, 0, 0, 1⟩ := by
  obtain ⟨h0, h1, h3, h9, h17⟩ := posed_slim_nodes
  simp only [world_matrix, h0, h1, h3, h9, local_matrix, rotation_matrix_zero,
    rotation_matrix_z90]
  simp only [multiply_matrix, translation_matrix, Mat4.mk.injEq]
  norm_num

/-- World matrix of the slim rig's `Body` box after the T-pose (the pose
does not touch the body chain). -/
theorem slim_W17 : world_matrix (posed_nodes "slim") 19 17 =
    ⟨1, 0, 0, -4, 0, 1, 0, 12, 0, 0, 1, -2, 0, 0, 0, 1⟩ := by
  obtain ⟨h0, h1, h3, h9, h17⟩ := posed_slim_nodes
  simp only [world_matrix, h0, h1, h17, local_matrix, rotation_matrix_zero]
  simp only [multiply_matrix, translation_matrix, Mat4.mk.injEq]
  norm_num

/-- Evaluation of the posed classic rig at the nodes on the right-arm
and body chains. -/
theorem posed_classic_nodes :
    (posed_nodes "classic").getD 0 default = ⟨"root", none, (0, 0, 0), (0, 0, 0)⟩ ∧
    (posed_nodes "classic").getD 1 default = ⟨"BodyJoint", some 0, (0, 12, 0), (0, 0, 0)⟩ ∧
    (posed_nodes "classic").getD 3 default = ⟨"RightArmJoint", some 1, (4, 8, 0), (0, 0, 90)⟩ ∧
    (posed_nodes "classic").getD 9 default = ⟨"RightArm", some 3, (0, -8, -2), (0, 0, 0)⟩ ∧
    (posed_nodes "classic").getD 17 default = ⟨"Body", some 1, (-4, 0, -2), (0, 0, 0)⟩ := by
  refine ⟨?_, ?_, ?_, ?_, ?_⟩ <;>
    · simp [posed_nodes, apply_pose, poseStep, applyEntry, create_rig_nodes, t_pose_data,
        List.getD]
      try norm_num

/-- World matrix of the classic rig's `RightArm` box after the T-pose. -/
theorem classic_W9 : world_matrix (posed_nodes "classic") 19 9 =
    ⟨0, -1, 0, 12, 1, 0, 0, 20, 0, 0, 1, -2, 0, 0, 0, 1⟩ := by
  obtain ⟨h0, h1, h3, h9, h17⟩ := posed_classic_nodes
  simp only [world_matrix, h0, h1, h3, h9, local_matrix, rotation_matrix_zero,
    rotation_matrix_z90]
  simp only [multiply_matrix, translation_matrix, Mat4.mk.injEq]
  norm_num

/-- World matrix of the classic rig's `Body` box after the T-pose. -/
theorem classic_W17 : world_matrix (posed_nodes "classic") 19 17 =
    ⟨1, 0, 0, -4, 0, 1, 0, 12, 0, 0, 1, -2, 0, 0, 0, 1⟩ := by
  obtain ⟨h0, h1, h3, h9, h17⟩ := posed_classic_nodes
  simp only [world_matrix, h0, h1, h17, local_matrix, rotation_matrix_zero]
  simp only [multiply_matrix, translation_matrix, Mat4.mk.injEq]
  norm_num

/-- Claim C3 is contradicted by the code for the slim rig: after
`t_pose` the classic rig's rotated right arm (size 4x12x4) reaches world
Y = 24, flush with the body top (Y = 24) — but the slim rig's arm (size
3x12x4) only reaches world Y = 23, one unit below the body top, because
the pose's position override hardcodes the classic pivot height `y = 8`
(world 20) while the rig factory's documented rule `pivot = 24 -
arm_width` needs `y = 9` (world 21) for the slim arm. -/
theorem C3_tpose_arm_top :
    aabb_max_y (world_matrix (posed_nodes "classic") 19 9) 4 12 4 = 24 ∧
    aabb_max_y (world_matrix (posed_nodes "classic") 19 17) 8 12 4 = 24 ∧
    aabb_max_y (world_matrix (posed_nodes "slim") 19 9) 3 12 4 = 23 ∧
    aabb_max_y (world_matrix (posed_nodes "slim") 19 17) 8 12 4 = 24 := by
  rw [classic_W9, classic_W17, slim_W9, slim_W17]
  refine ⟨?_, ?_, ?_, ?_⟩ <;>
    · simp [aabb_max_y, corner_list, transform_point]
      norm_num [max_def]
